import Mathlib

/-!
Verification of the Ray autoscaler state-synchronization protocol
(`src/ray/protobuf/experimental/autoscaler.proto`) against its design
specification.

The repository source for this protocol is the protobuf schema alone: the
message and enum shapes below are embedded directly from
`autoscaler.proto`.  The enforcing logic (the cluster resource state
authority, the report version check, the node status state machine and the
gang/anti-affinity scheduler) is not part of the visible source tree, so it
is modelled from the specification; each such definition says so in its
doc comment.  Protobuf `double` fields are modelled as rationals (the
properties below only use ordering and exact sums), `int64` fields as
integers, and proto map fields as association lists.
-/

/-- Lookup in an association list with string keys, first match wins, as
protobuf map decoding does for repeated map entries. -/
def alookup {α : Type} : List (String × α) → String → Option α
  | [], _ => none
  | (k, v) :: rest, q => if k = q then some v else alookup rest q

/-- A protobuf `map<string, double>` field, modelled with rational values. -/
abbrev ResourceMap := List (String × Rat)

/-- A protobuf `map<string, string>` field. -/
abbrev LabelMap := List (String × String)

/-- Quantity of resource `k` in map `m`; missing entries read as the proto3
default 0. -/
def lookupD (m : ResourceMap) (k : String) : Rat :=
  (alookup m k).getD 0

/-- Pointwise difference of two resource maps, defined on the union of
their key sets. -/
def mapSub (a b : ResourceMap) : ResourceMap :=
  (a.map Prod.fst ++ b.map Prod.fst).map fun k => (k, lookupD a k - lookupD b k)

/-- Componentwise comparison of two resource maps over the union of their
key sets (keys absent from both compare as 0 ≤ 0). -/
def mapLeB (a b : ResourceMap) : Bool :=
  (a ++ b).all fun p => lookupD a p.1 ≤ lookupD b p.1

/-- All entries of the resource map are non-negative. -/
def mapNonnegB (a : ResourceMap) : Bool :=
  a.all fun p => 0 ≤ p.2

/-! ## The protobuf data model, embedded from `autoscaler.proto` -/

/-- Message `AntiAffinityConstraint`: a bundle with this constraint cannot
be allocated to a node that has a label with the same name and value. -/
structure AntiAffinityConstraint where
  label_name : String
  label_value : String
  create_label_on_schedule : Bool
deriving DecidableEq, Repr

/-- Message `PlacementConstraint` (the nested message field is optional in
proto3). -/
structure PlacementConstraint where
  anti_affinity : Option AntiAffinityConstraint
deriving DecidableEq, Repr

/-- Message `ResourceRequest`. -/
structure ResourceRequest where
  resources_bundle : ResourceMap
  placement_constraints : List PlacementConstraint
deriving DecidableEq, Repr

/-- Message `ResourceRequestByCount`. -/
structure ResourceRequestByCount where
  request : Option ResourceRequest
  count : Int
deriving DecidableEq, Repr

/-- Message `GangResourceRequest`: all bundles require gang allocation
semantics, allocated all or nothing. -/
structure GangResourceRequest where
  requests : List ResourceRequest
deriving DecidableEq, Repr

/-- Message `ClusterResourceConstraint`: minimal cluster size requirement. -/
structure ClusterResourceConstraint where
  min_resources : ResourceMap
  min_bundles : List ResourceRequest
  job_id : String
deriving DecidableEq, Repr

/-- Enum `NodeState.NodeStatus` from the schema. -/
inductive NodeStatus where
  | ALIVE
  | DEAD
  | DRAIN_PENDING
  | DRAIN_FAILED
  | DRAINING
  | DRAINED
deriving DecidableEq, Repr

/-- The proto tag number assigned to each `NodeStatus` variant in the
schema. -/
def NodeStatus.toTag : NodeStatus → Nat
  | .ALIVE => 0
  | .DEAD => 1
  | .DRAIN_PENDING => 2
  | .DRAIN_FAILED => 3
  | .DRAINING => 4
  | .DRAINED => 5

/-- Decode a proto tag number to a `NodeStatus`, `none` for unknown tags. -/
def NodeStatus.ofTag : Nat → Option NodeStatus
  | 0 => some .ALIVE
  | 1 => some .DEAD
  | 2 => some .DRAIN_PENDING
  | 3 => some .DRAIN_FAILED
  | 4 => some .DRAINING
  | 5 => some .DRAINED
  | _ => none

/-- Message `NodeState`. -/
structure NodeState where
  node_id : String
  instance_id : String
  available_resources : ResourceMap
  total_resources : ResourceMap
  dynamic_labels : LabelMap
  node_state_version : Int
  status : NodeStatus
deriving DecidableEq, Repr

/-- Enum `Instance.InstanceStatus` from the schema. -/
inductive InstanceStatus where
  | INSTANCE_STATUS_UNSPECIFIED
  | STARTING
  | RUNNING
  | IDLE
  | STOPPING
  | STOPPED
  | FAILING
  | DRAIN_CONFIRMATION_PENDING
  | DRAIN_REQUEST
  | PREEMPT_REQUEST
deriving DecidableEq, Repr

/-- The proto tag number assigned to each `InstanceStatus` variant in the
schema. -/
def InstanceStatus.toTag : InstanceStatus → Nat
  | .INSTANCE_STATUS_UNSPECIFIED => 0
  | .STARTING => 1
  | .RUNNING => 2
  | .IDLE => 3
  | .STOPPING => 4
  | .STOPPED => 5
  | .FAILING => 6
  | .DRAIN_CONFIRMATION_PENDING => 7
  | .DRAIN_REQUEST => 8
  | .PREEMPT_REQUEST => 9

/-- Decode a proto tag number to an `InstanceStatus`, `none` for unknown
tags. -/
def InstanceStatus.ofTag : Nat → Option InstanceStatus
  | 0 => some .INSTANCE_STATUS_UNSPECIFIED
  | 1 => some .STARTING
  | 2 => some .RUNNING
  | 3 => some .IDLE
  | 4 => some .STOPPING
  | 5 => some .STOPPED
  | 6 => some .FAILING
  | 7 => some .DRAIN_CONFIRMATION_PENDING
  | 8 => some .DRAIN_REQUEST
  | 9 => some .PREEMPT_REQUEST
  | _ => none

/-- Message `Instance`. -/
structure Instance where
  instance_id : String
  status : InstanceStatus
  node_type : String
  total_resources : ResourceMap
  timestamp_since_last_state_change : Int
deriving DecidableEq, Repr

/-- Message `GetClusterResourceStateRequest`. -/
structure GetClusterResourceStateRequest where
  last_seen_cluster_resource_state_version : Int
deriving DecidableEq, Repr

/-- Message `GetClusterResourceStateReply`. -/
structure GetClusterResourceStateReply where
  cluster_resource_state_version : Int
  last_seen_autoscaler_state_version : Int
  node_states : List NodeState
  pending_resource_requests : List ResourceRequestByCount
  pending_gang_resource_requests : List GangResourceRequest
  cluster_resource_constraints : List ClusterResourceConstraint
deriving DecidableEq, Repr

/-- Message `ReportAutoscalingStateRequest`, embedded field for field from
the schema.  NOTE: field 5 in the schema is declared as
`repeated ClusterResourceConstraint infeasible_gange_resource_requests`
(sic), so that is the type used here. -/
structure ReportAutoscalingStateRequest where
  last_seen_cluster_resource_state_version : Int
  autoscaler_state_version : Int
  instances : List Instance
  infeasible_resource_requests : List ResourceRequest
  infeasible_gange_resource_requests : List ClusterResourceConstraint
  infeasible_cluster_resource_constraints : List ClusterResourceConstraint
deriving DecidableEq, Repr

/-- Message `ReportAutoscalingStateReply` (empty). -/
structure ReportAutoscalingStateReply where
deriving DecidableEq, Repr

/-! ## Wire schema descriptors (for comparing the schema with the spec) -/

/-- Type of a protobuf field as written in the schema, by name for message
types. -/
inductive FieldType where
  | int64
  | repeatedMsg (messageName : String)
deriving DecidableEq, Repr

/-- A field descriptor: tag number, field name, field type. -/
structure FieldDesc where
  tag : Nat
  fname : String
  ftype : FieldType
deriving DecidableEq, Repr

/-- The fields of message `ReportAutoscalingStateRequest` exactly as
declared in `autoscaler.proto` (note field 5: name and type as written in
the schema). -/
def reportAutoscalingStateRequestFields : List FieldDesc :=
  [ ⟨1, "last_seen_cluster_resource_state_version", .int64⟩,
    ⟨2, "autoscaler_state_version", .int64⟩,
    ⟨3, "instances", .repeatedMsg "Instance"⟩,
    ⟨4, "infeasible_resource_requests", .repeatedMsg "ResourceRequest"⟩,
    ⟨5, "infeasible_gange_resource_requests", .repeatedMsg "ClusterResourceConstraint"⟩,
    ⟨6, "infeasible_cluster_resource_constraints", .repeatedMsg "ClusterResourceConstraint"⟩ ]

/-- Modelled from the spec: the field list the specification states for the
`ReportAutoscalingState` request (data model and component design name the
third infeasible list `infeasible_gang_resource_requests`, a list of
`GangResourceRequest`). -/
def reportAutoscalingStateRequestFieldsSpec : List FieldDesc :=
  [ ⟨1, "last_seen_cluster_resource_state_version", .int64⟩,
    ⟨2, "autoscaler_state_version", .int64⟩,
    ⟨3, "instances", .repeatedMsg "Instance"⟩,
    ⟨4, "infeasible_resource_requests", .repeatedMsg "ResourceRequest"⟩,
    ⟨5, "infeasible_gang_resource_requests", .repeatedMsg "GangResourceRequest"⟩,
    ⟨6, "infeasible_cluster_resource_constraints", .repeatedMsg "ClusterResourceConstraint"⟩ ]

/-- The fields of message `GetClusterResourceStateReply` exactly as
declared in `autoscaler.proto`. -/
def getClusterResourceStateReplyFields : List FieldDesc :=
  [ ⟨1, "cluster_resource_state_version", .int64⟩,
    ⟨2, "last_seen_autoscaler_state_version", .int64⟩,
    ⟨3, "node_states", .repeatedMsg "NodeState"⟩,
    ⟨4, "pending_resource_requests", .repeatedMsg "ResourceRequestByCount"⟩,
    ⟨5, "pending_gang_resource_requests", .repeatedMsg "GangResourceRequest"⟩,
    ⟨6, "cluster_resource_constraints", .repeatedMsg "ClusterResourceConstraint"⟩ ]

/-- Modelled from the spec: the field list the specification states for the
`GetClusterResourceState` reply. -/
def getClusterResourceStateReplyFieldsSpec : List FieldDesc :=
  [ ⟨1, "cluster_resource_state_version", .int64⟩,
    ⟨2, "last_seen_autoscaler_state_version", .int64⟩,
    ⟨3, "node_states", .repeatedMsg "NodeState"⟩,
    ⟨4, "pending_resource_requests", .repeatedMsg "ResourceRequestByCount"⟩,
    ⟨5, "pending_gang_resource_requests", .repeatedMsg "GangResourceRequest"⟩,
    ⟨6, "cluster_resource_constraints", .repeatedMsg "ClusterResourceConstraint"⟩ ]

/-- Find the descriptor with a given tag number. -/
def findField (fields : List FieldDesc) (t : Nat) : Option FieldDesc :=
  fields.find? fun f => f.tag = t

/-! ## Proto3 decoding of enum fields

A proto3 scalar field that is absent from the wire reads as its default
value, which for an enum is the variant with tag 0.  An enum field is
therefore decoded from an optional tag number. -/

/-- Decode a possibly-absent `NodeStatus` field as proto3 does: an absent
field reads as tag 0. -/
def decodeNodeStatusField (wire : Option Nat) : Option NodeStatus :=
  NodeStatus.ofTag (wire.getD 0)

/-- Decode a possibly-absent `InstanceStatus` field as proto3 does: an
absent field reads as tag 0. -/
def decodeInstanceStatusField (wire : Option Nat) : Option InstanceStatus :=
  InstanceStatus.ofTag (wire.getD 0)

/-! ## Node status state machine -/

/-- Modelled from the spec: the node status transition relation of the
design (the enforcing code is not in the visible source, which only
declares the `NodeStatus` enum).  Edges: `ALIVE → DRAIN_PENDING →
DRAINING → DRAINED`, `DRAIN_PENDING/DRAINING → DRAIN_FAILED`,
`DRAIN_FAILED → ALIVE`, and any state to `DEAD`, with `DEAD` terminal. -/
def validNodeStatusTransition : NodeStatus → NodeStatus → Bool
  | .DEAD, _ => false
  | _, .DEAD => true
  | .ALIVE, .DRAIN_PENDING => true
  | .DRAIN_PENDING, .DRAINING => true
  | .DRAINING, .DRAINED => true
  | .DRAIN_PENDING, .DRAIN_FAILED => true
  | .DRAINING, .DRAIN_FAILED => true
  | .DRAIN_FAILED, .ALIVE => true
  | _, _ => false

/-- The edge list of the node status state machine, as pairs
(source, target). -/
def nodeStatusEdges : List (NodeStatus × NodeStatus) :=
  [ (.ALIVE, .DRAIN_PENDING), (.DRAIN_PENDING, .DRAINING),
    (.DRAINING, .DRAINED), (.DRAIN_PENDING, .DRAIN_FAILED),
    (.DRAINING, .DRAIN_FAILED), (.DRAIN_FAILED, .ALIVE),
    (.ALIVE, .DEAD), (.DRAIN_PENDING, .DEAD), (.DRAIN_FAILED, .DEAD),
    (.DRAINING, .DEAD), (.DRAINED, .DEAD) ]

/-! ## Scheduler model: anti-affinity and gang allocation

The scheduling algorithm itself is outside the visible source (the schema
only declares the request shapes), so the allocation step is modelled from
the specification: a bundle fits a node when its demands fit the node's
available resources and every placement constraint is satisfied; placing
it subtracts the demand and, for anti-affinity constraints with
`create_label_on_schedule`, adds the label to the chosen node. -/

/-- Modelled from the spec: a single placement constraint holds at a node
with labels `l` when the node does not already carry the anti-affinity
label/value pair (an empty `PlacementConstraint` is trivially satisfied). -/
def constraintOkB (l : LabelMap) (pc : PlacementConstraint) : Bool :=
  match pc.anti_affinity with
  | some c => decide (alookup l c.label_name ≠ some c.label_value)
  | none => true

/-- Modelled from the spec: constraints combine with AND semantics within
one request. -/
def constraintsOkB (l : LabelMap) (cs : List PlacementConstraint) : Bool :=
  cs.all (constraintOkB l)

/-- Modelled from the spec: a bundle fits a node when every demanded
resource is at most the node's available quantity and all placement
constraints hold. -/
def nodeFits (n : NodeState) (r : ResourceRequest) : Bool :=
  (r.resources_bundle.all fun p =>
    lookupD r.resources_bundle p.1 ≤ lookupD n.available_resources p.1) &&
  constraintsOkB n.dynamic_labels r.placement_constraints

/-- Modelled from the spec: scheduling a request on a node adds, for every
anti-affinity constraint with `create_label_on_schedule` set, the
constraint's label/value pair to the node's label set. -/
def applyScheduleLabels : List PlacementConstraint → LabelMap → LabelMap
  | [], l => l
  | ⟨some c⟩ :: rest, l =>
    if c.create_label_on_schedule then
      applyScheduleLabels rest ((c.label_name, c.label_value) :: l)
    else applyScheduleLabels rest l
  | ⟨none⟩ :: rest, l => applyScheduleLabels rest l

/-- Modelled from the spec: the effect of allocating request `r` on node
`n`: demand is subtracted from the available resources and schedule-time
labels are added. -/
def allocateOn (n : NodeState) (r : ResourceRequest) : NodeState :=
  { n with
    available_resources := mapSub n.available_resources r.resources_bundle
    dynamic_labels := applyScheduleLabels r.placement_constraints n.dynamic_labels }

/-- Modelled from the spec: place one bundle on the first node of the list
that fits it, returning the updated node list, or `none` when no node
fits. -/
def placeRequest : List NodeState → ResourceRequest → Option (List NodeState)
  | [], _ => none
  | n :: ns, r =>
    if nodeFits n r then some (allocateOn n r :: ns)
    else (placeRequest ns r).map (n :: ·)

/-- Modelled from the spec: allocate a list of bundles one after another;
the whole allocation fails as soon as one bundle cannot be placed. -/
def allocateBundles (nodes : List NodeState) : List ResourceRequest → Option (List NodeState)
  | [] => some nodes
  | r :: rest =>
    match placeRequest nodes r with
    | some nodes' => allocateBundles nodes' rest
    | none => none

/-- Total quantity of resource `k` available across a node list. -/
def sumAvail (nodes : List NodeState) (k : String) : Rat :=
  (nodes.map fun n => lookupD n.available_resources k).sum

/-- Total demand for resource `k` across the bundles of a gang request. -/
def gangDemand (g : GangResourceRequest) (k : String) : Rat :=
  (g.requests.map fun r => lookupD r.resources_bundle k).sum

/-- Every bundle of the gang request has only non-negative demands. -/
def gangWellFormed (g : GangResourceRequest) : Bool :=
  g.requests.all fun r => mapNonnegB r.resources_bundle

/-! ## The Cluster Resource State Authority -/

/-- Modelled from the spec: the state owned by the Cluster Resource State
Authority (its implementation is not in the visible source; the schema
declares the two RPCs it serves).  It holds the monotonically increasing
cluster resource state version, the node states, the pending demand, and
the reporter-side state recorded from the last accepted report. -/
structure AuthorityState where
  cluster_resource_state_version : Int
  last_seen_autoscaler_state_version : Int
  node_states : List NodeState
  pending_resource_requests : List ResourceRequestByCount
  pending_gang_resource_requests : List GangResourceRequest
  cluster_resource_constraints : List ClusterResourceConstraint
  instances : List Instance
  infeasible_resource_requests : List ResourceRequest
  infeasible_gange_resource_requests : List ClusterResourceConstraint
  infeasible_cluster_resource_constraints : List ClusterResourceConstraint
deriving DecidableEq, Repr

/-- The initial Authority state: version 0, nothing recorded. -/
def initialAuthorityState : AuthorityState :=
  ⟨0, 0, [], [], [], [], [], [], [], []⟩

/-- The full snapshot of an Authority state, as returned to callers. -/
def snapshotOf (s : AuthorityState) : GetClusterResourceStateReply :=
  { cluster_resource_state_version := s.cluster_resource_state_version
    last_seen_autoscaler_state_version := s.last_seen_autoscaler_state_version
    node_states := s.node_states
    pending_resource_requests := s.pending_resource_requests
    pending_gang_resource_requests := s.pending_gang_resource_requests
    cluster_resource_constraints := s.cluster_resource_constraints }

/-- Modelled from the spec: `GetClusterResourceState` always returns the
current full snapshot; the submitted last-seen version is informational
only and the state is returned unchanged. -/
def getClusterResourceState (s : AuthorityState)
    (_req : GetClusterResourceStateRequest) :
    GetClusterResourceStateReply × AuthorityState :=
  (snapshotOf s, s)

/-- The observable failure signals of `ReportAutoscalingState`. -/
inductive ReportError where
  | stale (submitted stored : Int)
  | malformedIds
deriving DecidableEq, Repr

/-- Outcome of a `ReportAutoscalingState` call. -/
inductive ReportOutcome where
  | accepted (reply : ReportAutoscalingStateReply)
  | rejected (e : ReportError)
deriving DecidableEq, Repr

/-- Instance ids within one report must be non-empty and pairwise
distinct. -/
def validInstanceIds (l : List Instance) : Bool :=
  (l.all fun i => i.instance_id ≠ "") &&
    decide (l.map (fun i => i.instance_id)).Nodup

/-- Modelled from the spec: `ReportAutoscalingState`.  A report whose
`autoscaler_state_version` is not strictly greater than the stored one is
rejected as stale; a report with empty or duplicate instance ids is
rejected whole; an accepted report replaces the recorded reporter-side
state in full and stores the submitted version.  Rejections leave the
state untouched. -/
def reportAutoscalingState (s : AuthorityState)
    (req : ReportAutoscalingStateRequest) : ReportOutcome × AuthorityState :=
  if req.autoscaler_state_version ≤ s.last_seen_autoscaler_state_version then
    (.rejected (.stale req.autoscaler_state_version
      s.last_seen_autoscaler_state_version), s)
  else if ¬ validInstanceIds req.instances then
    (.rejected .malformedIds, s)
  else
    (.accepted ⟨⟩,
      { s with
        last_seen_autoscaler_state_version := req.autoscaler_state_version
        instances := req.instances
        infeasible_resource_requests := req.infeasible_resource_requests
        infeasible_gange_resource_requests := req.infeasible_gange_resource_requests
        infeasible_cluster_resource_constraints :=
          req.infeasible_cluster_resource_constraints })

/-! ## Runs of the Authority

The spec serializes all mutations of the Authority behind one critical
section, so concurrency is modelled as an arbitrary interleaving of atomic
events: updates from the external resource-tracking feed, scheduling
steps, reports, and reads. -/

/-- Insert or replace a node by its `node_id`. -/
def upsertNode (nodes : List NodeState) (n : NodeState) : List NodeState :=
  if nodes.any fun m => decide (m.node_id = n.node_id) then
    nodes.map fun m => if m.node_id = n.node_id then n else m
  else nodes ++ [n]

/-- Modelled from the spec: a node state offered by the external feed is
admitted only when its id is non-empty, its available resources are
componentwise at most its total resources, and, for a node already known,
its status is unchanged or reached by a valid status transition. -/
def nodeUpdateOk (nodes : List NodeState) (n : NodeState) : Bool :=
  decide (n.node_id ≠ "") &&
  mapLeB n.available_resources n.total_resources &&
  nodes.all fun m =>
    decide (m.node_id ≠ n.node_id) || decide (m.status = n.status) ||
      validNodeStatusTransition m.status n.status

/-- One atomic event at the Authority's serialization point. -/
inductive AuthorityEvent where
  | updateNode (n : NodeState)
  | removeNode (id : String)
  | setPendingRequests (l : List ResourceRequestByCount)
  | setPendingGangs (l : List GangResourceRequest)
  | setConstraints (l : List ClusterResourceConstraint)
  | allocGang (g : GangResourceRequest)
  | report (req : ReportAutoscalingStateRequest)
  | getState (req : GetClusterResourceStateRequest)

/-- Modelled from the spec: the atomic step of the Authority on one event.
Every observable change to node states, pending requests, gang requests or
constraints increments `cluster_resource_state_version`; reads return a
snapshot and change nothing. -/
def stepAuthority (s : AuthorityState) :
    AuthorityEvent → AuthorityState × Option GetClusterResourceStateReply
  | .updateNode n =>
    if nodeUpdateOk s.node_states n then
      ({ s with
          node_states := upsertNode s.node_states n
          cluster_resource_state_version :=
            s.cluster_resource_state_version + 1 }, none)
    else (s, none)
  | .removeNode i =>
    ({ s with
        node_states := s.node_states.filter fun m => decide (m.node_id ≠ i)
        cluster_resource_state_version :=
          s.cluster_resource_state_version + 1 }, none)
  | .setPendingRequests l =>
    ({ s with
        pending_resource_requests := l
        cluster_resource_state_version :=
          s.cluster_resource_state_version + 1 }, none)
  | .setPendingGangs l =>
    ({ s with
        pending_gang_resource_requests := l
        cluster_resource_state_version :=
          s.cluster_resource_state_version + 1 }, none)
  | .setConstraints l =>
    ({ s with
        cluster_resource_constraints := l
        cluster_resource_state_version :=
          s.cluster_resource_state_version + 1 }, none)
  | .allocGang g =>
    if gangWellFormed g then
      match allocateBundles s.node_states g.requests with
      | some ns =>
        ({ s with
            node_states := ns
            pending_gang_resource_requests :=
              s.pending_gang_resource_requests.erase g
            cluster_resource_state_version :=
              s.cluster_resource_state_version + 1 }, none)
      | none => (s, none)
    else (s, none)
  | .report req => ((reportAutoscalingState s req).2, none)
  | .getState req =>
    ((getClusterResourceState s req).2, some (getClusterResourceState s req).1)

/-- The state after running a list of events. -/
def runAuthority (s : AuthorityState) : List AuthorityEvent → AuthorityState
  | [] => s
  | e :: es => runAuthority (stepAuthority s e).1 es

/-- All snapshots returned to readers during a run. -/
def repliesOf (s : AuthorityState) :
    List AuthorityEvent → List GetClusterResourceStateReply
  | [] => []
  | e :: es => (stepAuthority s e).2.toList ++ repliesOf (stepAuthority s e).1 es

/-- All states the Authority passes through during a run, the initial one
included. -/
def statesOf (s : AuthorityState) : List AuthorityEvent → List AuthorityState
  | [] => [s]
  | e :: es => s :: statesOf (stepAuthority s e).1 es

/-- The versions of the reports accepted while processing a request list in
order, starting from state `s`. -/
def acceptedVersions (s : AuthorityState) :
    List ReportAutoscalingStateRequest → List Int
  | [] => []
  | r :: rs =>
    match reportAutoscalingState s r with
    | (.accepted _, s') => r.autoscaler_state_version :: acceptedVersions s' rs
    | (.rejected _, s') => acceptedVersions s' rs

/-- The node invariant of the data model: available resources are
componentwise at most total resources. -/
def nodeOk (n : NodeState) : Prop :=
  ∀ k, lookupD n.available_resources k ≤ lookupD n.total_resources k

/-- All nodes of a list satisfy the node invariant. -/
def nodesOk (nodes : List NodeState) : Prop :=
  ∀ n ∈ nodes, nodeOk n

/-- The anti-affinity label names carried by a constraint list. -/
def constraintNames (cs : List PlacementConstraint) : List String :=
  cs.filterMap fun pc => pc.anti_affinity.map fun c => c.label_name

/-! ## Example data for concrete instantiations -/

/-- An Authority state whose stored autoscaler state version is 5. -/
def exampleState5 : AuthorityState :=
  { initialAuthorityState with last_seen_autoscaler_state_version := 5 }

/-- A report carrying autoscaler state version 5 (stale against
`exampleState5`). -/
def exampleStaleReq : ReportAutoscalingStateRequest := ⟨5, 5, [], [], [], []⟩

/-- A report carrying autoscaler state version 6. -/
def exampleReq6a : ReportAutoscalingStateRequest := ⟨5, 6, [], [], [], []⟩

/-- A second report also carrying autoscaler state version 6. -/
def exampleReq6b : ReportAutoscalingStateRequest :=
  ⟨5, 6, [⟨"i1", .RUNNING, "n1", [("CPU", 4)], 0⟩], [], [], []⟩

/-- A node with 4 CPUs total and available. -/
def exampleNode : NodeState :=
  ⟨"n1", "i1", [("CPU", 4)], [("CPU", 4)], [], 0, .ALIVE⟩

/-- The events of the basic polling scenario: the feed adds a node, then a
reader takes a snapshot. -/
def exampleEventsC6 : List AuthorityEvent :=
  [.updateNode exampleNode, .getState ⟨0⟩]

/-- A gang request of two bundles of 2 CPUs each. -/
def exampleGang : GangResourceRequest :=
  ⟨[⟨[("CPU", 2)], []⟩, ⟨[("CPU", 2)], []⟩]⟩

/-- An Authority state with one node having only 2 CPUs available and
`exampleGang` pending. -/
def exampleStateOneNode : AuthorityState :=
  { initialAuthorityState with
    node_states := [⟨"n1", "i1", [("CPU", 2)], [("CPU", 4)], [], 0, .ALIVE⟩]
    pending_gang_resource_requests := [exampleGang] }

/-- A node already carrying the placement-group label. -/
def exampleLabeledNode : NodeState :=
  ⟨"n1", "i1", [("CPU", 4)], [("CPU", 4)], [("_PG", "pg1")], 0, .ALIVE⟩

/-- A node carrying no labels. -/
def exampleCleanNode : NodeState :=
  ⟨"n2", "i2", [("CPU", 4)], [("CPU", 4)], [], 0, .ALIVE⟩

/-- A placement-group anti-affinity constraint with schedule-time label
creation. -/
def examplePgConstraint : AntiAffinityConstraint := ⟨"_PG", "pg1", true⟩

/-- A one-CPU bundle carrying `examplePgConstraint`. -/
def examplePgRequest : ResourceRequest :=
  ⟨[("CPU", 1)], [⟨some examplePgConstraint⟩]⟩


/-! ## Resource map lemmas -/

/-- A successful lookup comes from an entry of the list. -/
theorem mem_of_alookup_eq_some {α : Type} {m : List (String × α)} {q : String}
    {v : α} (h : alookup m q = some v) : (q, v) ∈ m := by
  induction m with
  | nil => simp [alookup] at h
  | cons p rest ih =>
    obtain ⟨k, w⟩ := p
    rw [alookup] at h
    by_cases hk : k = q
    · rw [if_pos hk] at h
      cases h
      subst hk
      exact List.mem_cons_self _ _
    · rw [if_neg hk] at h
      exact List.mem_cons_of_mem _ (ih h)

/-- Lookup of a key that is not among the keys fails. -/
theorem alookup_eq_none_of_not_mem {α : Type} {m : List (String × α)}
    {q : String} (h : q ∉ m.map Prod.fst) : alookup m q = none := by
  induction m with
  | nil => rfl
  | cons p rest ih =>
    rw [List.map_cons, List.mem_cons] at h
    push_neg at h
    rw [alookup, if_neg (fun hk => h.1 hk.symm)]
    exact ih h.2

/-- Lookup in a list built by tagging each key of `ks` with `f`. -/
theorem alookup_map_pair (ks : List String) (f : String → Rat) (q : String) :
    alookup (ks.map fun k => (k, f k)) q
      = if q ∈ ks then some (f q) else none := by
  induction ks with
  | nil => simp [alookup]
  | cons k ks ih =>
    rw [List.map_cons, alookup, ih]
    by_cases hk : k = q
    · subst hk
      simp
    · simp [hk, Ne.symm hk, List.mem_cons]

/-- The boolean componentwise comparison agrees with the pointwise one. -/
theorem mapLeB_eq_true_iff (a b : ResourceMap) :
    mapLeB a b = true ↔ ∀ k, lookupD a k ≤ lookupD b k := by
  constructor
  · intro h k
    rw [mapLeB, List.all_eq_true] at h
    by_cases hka : alookup a k = none
    · by_cases hkb : alookup b k = none
      · simp [lookupD, hka, hkb]
      · obtain ⟨v, hv⟩ := Option.ne_none_iff_exists'.mp hkb
        have := h (k, v) (List.mem_append_right _ (mem_of_alookup_eq_some hv))
        simpa using this
    · obtain ⟨v, hv⟩ := Option.ne_none_iff_exists'.mp hka
      have := h (k, v) (List.mem_append_left _ (mem_of_alookup_eq_some hv))
      simpa using this
  · intro h
    rw [mapLeB, List.all_eq_true]
    intro p _
    simpa using h p.1

/-- Subtraction of resource maps is pointwise subtraction. -/
theorem lookupD_mapSub (a b : ResourceMap) (k : String) :
    lookupD (mapSub a b) k = lookupD a k - lookupD b k := by
  rw [mapSub, lookupD, alookup_map_pair]
  by_cases hk : k ∈ a.map Prod.fst ++ b.map Prod.fst
  · rw [if_pos hk]
    rfl
  · rw [if_neg hk]
    rw [List.mem_append] at hk
    push_neg at hk
    rw [lookupD, lookupD, alookup_eq_none_of_not_mem hk.1,
      alookup_eq_none_of_not_mem hk.2]
    simp

/-- In a map all of whose entries are non-negative, every quantity read is
non-negative. -/
theorem lookupD_nonneg_of_mapNonnegB (b : ResourceMap) :
    mapNonnegB b = true → ∀ k, 0 ≤ lookupD b k := by
  induction b with
  | nil => intro _ k; simp [lookupD, alookup]
  | cons p rest ih =>
    intro h k
    rw [mapNonnegB, List.all_cons, Bool.and_eq_true] at h
    rw [lookupD, alookup]
    by_cases hk : p.1 = k
    · rw [if_pos hk]
      simpa using h.1
    · rw [if_neg hk]
      exact ih h.2 k

/-! ## Node resource invariant and its preservation -/

/-- Allocating a bundle with non-negative demands on a node preserves the
node invariant. -/
theorem nodeOk_allocateOn {n : NodeState} {r : ResourceRequest}
    (hn : nodeOk n) (hr : mapNonnegB r.resources_bundle = true) :
    nodeOk (allocateOn n r) := by
  intro k
  show lookupD (mapSub n.available_resources r.resources_bundle) k
    ≤ lookupD n.total_resources k
  rw [lookupD_mapSub]
  have h1 := lookupD_nonneg_of_mapNonnegB _ hr k
  have h2 := hn k
  linarith

/-- Placing one bundle preserves the node invariant of every node. -/
theorem nodesOk_placeRequest {r : ResourceRequest}
    (hr : mapNonnegB r.resources_bundle = true) :
    ∀ (nodes ns' : List NodeState), placeRequest nodes r = some ns' →
      nodesOk nodes → nodesOk ns' := by
  intro nodes
  induction nodes with
  | nil => intro ns' h; simp [placeRequest] at h
  | cons m ms ih =>
    intro ns' h hok
    rw [placeRequest] at h
    by_cases hf : nodeFits m r = true
    · rw [if_pos hf] at h
      cases h
      intro n hn
      rcases List.mem_cons.mp hn with h1 | h2
      · subst h1
        exact nodeOk_allocateOn (hok m (List.mem_cons_self _ _)) hr
      · exact hok n (List.mem_cons_of_mem _ h2)
    · rw [if_neg hf] at h
      cases hms : placeRequest ms r with
      | none => rw [hms] at h; simp at h
      | some ms' =>
        rw [hms] at h
        simp only [Option.map_some'] at h
        cases h
        intro n hn
        rcases List.mem_cons.mp hn with h1 | h2
        · rw [h1]
          exact hok m (List.mem_cons_self _ _)
        · exact ih ms' hms (fun x hx => hok x (List.mem_cons_of_mem _ hx)) n h2

/-- Allocating a list of bundles with non-negative demands preserves the
node invariant of every node. -/
theorem nodesOk_allocateBundles :
    ∀ (rs : List ResourceRequest) (nodes ns' : List NodeState),
      (∀ r ∈ rs, mapNonnegB r.resources_bundle = true) →
      allocateBundles nodes rs = some ns' → nodesOk nodes → nodesOk ns' := by
  intro rs
  induction rs with
  | nil =>
    intro nodes ns' _ h hok
    rw [allocateBundles] at h
    cases h
    exact hok
  | cons r rest ih =>
    intro nodes ns' hr h hok
    rw [allocateBundles] at h
    cases hp : placeRequest nodes r with
    | none => rw [hp] at h; simp at h
    | some mid =>
      rw [hp] at h
      exact ih mid ns' (fun x hx => hr x (List.mem_cons_of_mem _ hx)) h
        (nodesOk_placeRequest (hr r (List.mem_cons_self _ _)) nodes mid hp hok)

/-- Members of an upserted node list are the new node or old members. -/
theorem mem_upsertNode {nodes : List NodeState} {n x : NodeState}
    (h : x ∈ upsertNode nodes n) : x = n ∨ x ∈ nodes := by
  rw [upsertNode] at h
  by_cases hc : nodes.any fun m => decide (m.node_id = n.node_id)
  · rw [if_pos hc] at h
    obtain ⟨y, hy, hxy⟩ := List.mem_map.mp h
    by_cases hid : y.node_id = n.node_id
    · rw [if_pos hid] at hxy
      exact Or.inl hxy.symm
    · rw [if_neg hid] at hxy
      exact Or.inr (hxy ▸ hy)
  · rw [if_neg hc] at h
    rcases List.mem_append.mp h with h1 | h2
    · exact Or.inr h1
    · rcases List.mem_singleton.mp h2 with h3
      exact Or.inl h3

/-- One Authority step preserves the node invariant of all stored nodes. -/
theorem nodesOk_stepAuthority {s : AuthorityState} (e : AuthorityEvent)
    (hok : nodesOk s.node_states) : nodesOk (stepAuthority s e).1.node_states := by
  cases e with
  | updateNode n =>
    rw [stepAuthority]
    by_cases hg : nodeUpdateOk s.node_states n = true
    · rw [if_pos hg]
      intro x hx
      rcases mem_upsertNode hx with h1 | h2
      · subst h1
        rw [nodeUpdateOk, Bool.and_eq_true, Bool.and_eq_true] at hg
        exact (mapLeB_eq_true_iff _ _).mp hg.1.2
      · exact hok x h2
    · rw [if_neg hg]
      exact hok
  | removeNode i =>
    intro x hx
    exact hok x (List.mem_of_mem_filter hx)
  | setPendingRequests l => exact hok
  | setPendingGangs l => exact hok
  | setConstraints l => exact hok
  | allocGang g =>
    rw [stepAuthority]
    by_cases hg : gangWellFormed g = true
    · rw [if_pos hg]
      cases ha : allocateBundles s.node_states g.requests with
      | none => exact hok
      | some ns =>
        have hr : ∀ r ∈ g.requests, mapNonnegB r.resources_bundle = true := by
          intro r hrr
          rw [gangWellFormed, List.all_eq_true] at hg
          exact hg r hrr
        exact nodesOk_allocateBundles g.requests s.node_states ns hr ha hok
    · rw [if_neg hg]
      exact hok
  | report req =>
    rw [stepAuthority, reportAutoscalingState]
    by_cases h1 : req.autoscaler_state_version ≤ s.last_seen_autoscaler_state_version
    · rw [if_pos h1]; exact hok
    · rw [if_neg h1]
      by_cases h2 : ¬ validInstanceIds req.instances = true
      · rw [if_pos h2]; exact hok
      · rw [if_neg h2]; exact hok
  | getState req => exact hok

/-! ## Run lemmas -/

/-- A step that returns a reply is a read: the reply is the full snapshot
of the pre-state and the state is unchanged. -/
theorem stepAuthority_reply {s : AuthorityState} {e : AuthorityEvent}
    {r : GetClusterResourceStateReply} (h : (stepAuthority s e).2 = some r) :
    r = snapshotOf s ∧ (stepAuthority s e).1 = s := by
  cases e with
  | updateNode n =>
    rw [stepAuthority] at h
    by_cases hg : nodeUpdateOk s.node_states n = true
    · rw [if_pos hg] at h; simp at h
    · rw [if_neg hg] at h; simp at h
  | removeNode i => rw [stepAuthority] at h; simp at h
  | setPendingRequests l => rw [stepAuthority] at h; simp at h
  | setPendingGangs l => rw [stepAuthority] at h; simp at h
  | setConstraints l => rw [stepAuthority] at h; simp at h
  | allocGang g =>
    rw [stepAuthority] at h
    by_cases hg : gangWellFormed g = true
    · rw [if_pos hg] at h
      cases ha : allocateBundles s.node_states g.requests with
      | none => rw [ha] at h; simp at h
      | some ns => rw [ha] at h; simp at h
    · rw [if_neg hg] at h; simp at h
  | report req => rw [stepAuthority] at h; simp at h
  | getState req =>
    rw [stepAuthority, getClusterResourceState] at h
    simp only [Option.some.injEq] at h
    exact ⟨h.symm, rfl⟩

/-- Every reply produced during a run is the snapshot of one state the
Authority passed through. -/
theorem repliesOf_are_snapshots :
    ∀ (events : List AuthorityEvent) (s : AuthorityState)
      (r : GetClusterResourceStateReply), r ∈ repliesOf s events →
      ∃ s', s' ∈ statesOf s events ∧ r = snapshotOf s' := by
  intro events
  induction events with
  | nil => intro s r h; simp [repliesOf] at h
  | cons e es ih =>
    intro s r h
    rw [repliesOf] at h
    rcases List.mem_append.mp h with h1 | h2
    · have hsome : (stepAuthority s e).2 = some r := by
        cases hopt : (stepAuthority s e).2 with
        | none => rw [hopt] at h1; simp [Option.toList] at h1
        | some x =>
          rw [hopt] at h1
          simp [Option.toList] at h1
          rw [h1]
      exact ⟨s, by rw [statesOf]; exact List.mem_cons_self _ _,
        (stepAuthority_reply hsome).1⟩
    · obtain ⟨s', hs', hr⟩ := ih (stepAuthority s e).1 r h2
      exact ⟨s', by rw [statesOf]; exact List.mem_cons_of_mem _ hs', hr⟩

/-- The node invariant holds in every reply of a run that starts from a
state whose nodes satisfy it. -/
theorem nodesOk_repliesOf :
    ∀ (events : List AuthorityEvent) (s : AuthorityState),
      nodesOk s.node_states →
      ∀ r ∈ repliesOf s events, nodesOk r.node_states := by
  intro events
  induction events with
  | nil => intro s _ r h; simp [repliesOf] at h
  | cons e es ih =>
    intro s hok r h
    rw [repliesOf] at h
    rcases List.mem_append.mp h with h1 | h2
    · have hsome : (stepAuthority s e).2 = some r := by
        cases hopt : (stepAuthority s e).2 with
        | none => rw [hopt] at h1; simp [Option.toList] at h1
        | some x =>
          rw [hopt] at h1
          simp [Option.toList] at h1
          rw [h1]
      rw [(stepAuthority_reply hsome).1]
      exact hok
    · exact ih (stepAuthority s e).1 (nodesOk_stepAuthority e hok) r h2

/-- Versions of accepted reports form a strictly increasing chain above the
stored version. -/
theorem chain_acceptedVersions :
    ∀ (reqs : List ReportAutoscalingStateRequest) (s : AuthorityState),
      List.Chain (· < ·) s.last_seen_autoscaler_state_version
        (acceptedVersions s reqs) := by
  intro reqs
  induction reqs with
  | nil => intro s; exact List.Chain.nil
  | cons r rs ih =>
    intro s
    rw [acceptedVersions, reportAutoscalingState]
    by_cases h1 : r.autoscaler_state_version ≤ s.last_seen_autoscaler_state_version
    · rw [if_pos h1]
      exact ih s
    · rw [if_neg h1]
      by_cases h2 : ¬ validInstanceIds r.instances = true
      · rw [if_pos h2]
        exact ih s
      · rw [if_neg h2]
        refine List.Chain.cons (not_le.mp h1) ?_
        exact ih { s with
          last_seen_autoscaler_state_version := r.autoscaler_state_version
          instances := r.instances
          infeasible_resource_requests := r.infeasible_resource_requests
          infeasible_gange_resource_requests := r.infeasible_gange_resource_requests
          infeasible_cluster_resource_constraints :=
            r.infeasible_cluster_resource_constraints }

/-! ## Node status path lemma -/

/-- Along any valid transition path, reaching `DRAINED` requires either
starting at `DRAINING` or passing through `DRAINING` (the only edge into
`DRAINED` leaves `DRAINING`). -/
theorem draining_before_drained :
    ∀ (path : List NodeStatus) (a : NodeStatus),
      List.Chain (fun x y => validNodeStatusTransition x y = true) a path →
      NodeStatus.DRAINED ∈ path →
      a = NodeStatus.DRAINING ∨ NodeStatus.DRAINING ∈ path := by
  intro path
  induction path with
  | nil => intro a _ h; simp at h
  | cons b rest ih =>
    intro a hchain hmem
    cases hchain with
    | cons hab hrest =>
      rcases List.mem_cons.mp hmem with h1 | h2
      · left
        rw [← h1] at hab
        cases a <;> first
          | rfl
          | simp [validNodeStatusTransition] at hab
      · rcases ih b hrest h2 with h3 | h4
        · right
          rw [h3] at *
          exact List.mem_cons_self _ _
        · right
          exact List.mem_cons_of_mem _ h4

/-! ## Gang allocation sum lemmas -/

/-- Placing one bundle reduces the cluster-wide available quantity of every
resource by exactly the bundle's demand. -/
theorem sumAvail_placeRequest :
    ∀ (nodes ns' : List NodeState) (r : ResourceRequest),
      placeRequest nodes r = some ns' →
      ∀ k, sumAvail ns' k = sumAvail nodes k - lookupD r.resources_bundle k := by
  intro nodes
  induction nodes with
  | nil => intro ns' r h; simp [placeRequest] at h
  | cons m ms ih =>
    intro ns' r h k
    rw [placeRequest] at h
    by_cases hf : nodeFits m r = true
    · rw [if_pos hf] at h
      cases h
      simp only [sumAvail, List.map_cons, List.sum_cons]
      have hsub : lookupD (allocateOn m r).available_resources k
          = lookupD m.available_resources k - lookupD r.resources_bundle k := by
        show lookupD (mapSub _ _) k = _
        exact lookupD_mapSub _ _ _
      rw [hsub]
      ring
    · rw [if_neg hf] at h
      cases hms : placeRequest ms r with
      | none => rw [hms] at h; simp at h
      | some ms' =>
        rw [hms] at h
        simp only [Option.map_some'] at h
        cases h
        simp only [sumAvail, List.map_cons, List.sum_cons]
        have := ih ms' r hms k
        simp only [sumAvail] at this
        rw [this]
        ring

/-- Allocating a list of bundles reduces the cluster-wide available
quantity of every resource by exactly the total demand of the list. -/
theorem sumAvail_allocateBundles :
    ∀ (rs : List ResourceRequest) (nodes ns' : List NodeState),
      allocateBundles nodes rs = some ns' →
      ∀ k, sumAvail ns' k
        = sumAvail nodes k - (rs.map fun r => lookupD r.resources_bundle k).sum := by
  intro rs
  induction rs with
  | nil =>
    intro nodes ns' h k
    rw [allocateBundles] at h
    cases h
    simp
  | cons r rest ih =>
    intro nodes ns' h k
    rw [allocateBundles] at h
    cases hp : placeRequest nodes r with
    | none => rw [hp] at h; simp at h
    | some mid =>
      rw [hp] at h
      rw [ih mid ns' h k, sumAvail_placeRequest nodes mid r hp k,
        List.map_cons, List.sum_cons]
      ring

/-! ## Anti-affinity lemmas -/

/-- A successful placement splits the node list around one chosen node that
fits the request; only that node is changed. -/
theorem placeRequest_decomp :
    ∀ (nodes ns' : List NodeState) (r : ResourceRequest),
      placeRequest nodes r = some ns' →
      ∃ pre n suf, nodes = pre ++ n :: suf ∧
        ns' = pre ++ allocateOn n r :: suf ∧ nodeFits n r = true := by
  intro nodes
  induction nodes with
  | nil => intro ns' r h; simp [placeRequest] at h
  | cons m ms ih =>
    intro ns' r h
    rw [placeRequest] at h
    by_cases hf : nodeFits m r = true
    · rw [if_pos hf] at h
      cases h
      exact ⟨[], m, ms, rfl, rfl, hf⟩
    · rw [if_neg hf] at h
      cases hms : placeRequest ms r with
      | none => rw [hms] at h; simp at h
      | some ms' =>
        rw [hms] at h
        simp only [Option.map_some'] at h
        cases h
        obtain ⟨pre, n, suf, h1, h2, h3⟩ := ih ms' r hms
        exact ⟨m :: pre, n, suf, by rw [h1]; rfl, by rw [h2]; rfl, h3⟩

/-- A node that satisfies a constraint list does not carry the label/value
pair of any anti-affinity constraint in the list. -/
theorem constraintsOkB_no_label {l : LabelMap} {cs : List PlacementConstraint}
    (h : constraintsOkB l cs = true) {c : AntiAffinityConstraint}
    (hc : PlacementConstraint.mk (some c) ∈ cs) :
    alookup l c.label_name ≠ some c.label_value := by
  rw [constraintsOkB, List.all_eq_true] at h
  have hk := h _ hc
  rw [constraintOkB] at hk
  simpa using hk

/-- Reduction of `constraintNames` on an anti-affinity head. -/
theorem constraintNames_cons_some (c : AntiAffinityConstraint)
    (rest : List PlacementConstraint) :
    constraintNames (⟨some c⟩ :: rest) = c.label_name :: constraintNames rest := rfl

/-- Reduction of `constraintNames` on an empty head. -/
theorem constraintNames_cons_none (rest : List PlacementConstraint) :
    constraintNames (⟨none⟩ :: rest) = constraintNames rest := rfl

/-- Applying schedule-time labels does not touch label names that appear in
no constraint of the list. -/
theorem alookup_applyScheduleLabels_of_not_mem :
    ∀ (cs : List PlacementConstraint) (l : LabelMap) (q : String),
      q ∉ constraintNames cs →
      alookup (applyScheduleLabels cs l) q = alookup l q := by
  intro cs
  induction cs with
  | nil => intro l q _; rfl
  | cons pc rest ih =>
    obtain ⟨pa⟩ := pc
    cases pa with
    | none =>
      intro l q hq
      rw [constraintNames_cons_none] at hq
      rw [applyScheduleLabels]
      exact ih l q hq
    | some c =>
      intro l q hq
      rw [constraintNames_cons_some, List.mem_cons] at hq
      push_neg at hq
      rw [applyScheduleLabels]
      by_cases hcr : c.create_label_on_schedule = true
      · rw [if_pos hcr, ih _ q hq.2, alookup, if_neg (fun he => hq.1 he.symm)]
      · rw [if_neg hcr]
        exact ih _ q hq.2

/-- When the anti-affinity label names of a request are pairwise distinct,
scheduling it adds the label of every constraint that asks for creation. -/
theorem alookup_applyScheduleLabels_create :
    ∀ (cs : List PlacementConstraint) (l : LabelMap)
      (c : AntiAffinityConstraint), (constraintNames cs).Nodup →
      PlacementConstraint.mk (some c) ∈ cs →
      c.create_label_on_schedule = true →
      alookup (applyScheduleLabels cs l) c.label_name = some c.label_value := by
  intro cs
  induction cs with
  | nil => intro l c _ hmem _; simp at hmem
  | cons pc rest ih =>
    intro l c hnd hmem hcr
    obtain ⟨pa⟩ := pc
    rcases List.mem_cons.mp hmem with h1 | h2
    · have hpa : pa = some c := congrArg PlacementConstraint.anti_affinity h1.symm
      subst hpa
      rw [applyScheduleLabels, if_pos hcr]
      rw [constraintNames_cons_some] at hnd
      have hnotin : c.label_name ∉ constraintNames rest :=
        (List.nodup_cons.mp hnd).1
      rw [alookup_applyScheduleLabels_of_not_mem rest _ _ hnotin, alookup,
        if_pos rfl]
    · cases pa with
      | none =>
        rw [applyScheduleLabels]
        rw [constraintNames_cons_none] at hnd
        exact ih l c hnd h2 hcr
      | some a =>
        rw [constraintNames_cons_some] at hnd
        rw [applyScheduleLabels]
        by_cases hacr : a.create_label_on_schedule = true
        · rw [if_pos hacr]
          exact ih _ c (List.Nodup.of_cons hnd) h2 hcr
        · rw [if_neg hacr]
          exact ih _ c (List.Nodup.of_cons hnd) h2 hcr

/-! ## The claims -/

/-- C1: a `ReportAutoscalingState` call whose `autoscaler_state_version` is
at most the stored one is rejected with an observable stale-version error
and the Authority state is left entirely unchanged. -/
theorem claim_C1_stale_report_rejected_no_mutation
    (s : AuthorityState) (req : ReportAutoscalingStateRequest)
    (h : req.autoscaler_state_version ≤ s.last_seen_autoscaler_state_version) :
    (reportAutoscalingState s req).1
        = .rejected (.stale req.autoscaler_state_version
            s.last_seen_autoscaler_state_version) ∧
    (reportAutoscalingState s req).2 = s := by
  rw [reportAutoscalingState, if_pos h]
  exact ⟨rfl, rfl⟩

/-- Witness for C1: a report with version 5 against stored version 5 is
rejected as stale and mutates nothing. -/
theorem claim_C1_witness :
    (reportAutoscalingState exampleState5 exampleStaleReq).1
        = .rejected (.stale 5 5) ∧
    (reportAutoscalingState exampleState5 exampleStaleReq).2 = exampleState5 :=
  claim_C1_stale_report_rejected_no_mutation exampleState5 exampleStaleReq
    (by decide)

/-- C2: over any sequence of reports the versions of the accepted ones form
a strictly increasing chain above the stored version; and of two
well-formed reports submitted with the same fresh version, the first is
accepted and the second is rejected as stale. -/
theorem claim_C2_accepted_versions_strictly_increasing :
    (∀ (s : AuthorityState) (reqs : List ReportAutoscalingStateRequest),
      List.Chain (· < ·) s.last_seen_autoscaler_state_version
        (acceptedVersions s reqs)) ∧
    (∀ (s : AuthorityState) (r1 r2 : ReportAutoscalingStateRequest),
      r1.autoscaler_state_version = r2.autoscaler_state_version →
      s.last_seen_autoscaler_state_version < r1.autoscaler_state_version →
      validInstanceIds r1.instances = true →
      (reportAutoscalingState s r1).1 = .accepted ⟨⟩ ∧
      (reportAutoscalingState (reportAutoscalingState s r1).2 r2).1
        = .rejected (.stale r2.autoscaler_state_version
            r1.autoscaler_state_version)) := by
  constructor
  · exact fun s reqs => chain_acceptedVersions reqs s
  · intro s r1 r2 hv hlt hids
    have hnot : ¬ r1.autoscaler_state_version
        ≤ s.last_seen_autoscaler_state_version := not_le.mpr hlt
    have hval : ¬ ¬ validInstanceIds r1.instances = true := by simp [hids]
    have hs1 : (reportAutoscalingState s r1).2.last_seen_autoscaler_state_version
        = r1.autoscaler_state_version := by
      rw [reportAutoscalingState, if_neg hnot, if_neg hval]
    constructor
    · rw [reportAutoscalingState, if_neg hnot, if_neg hval]
    · rw [reportAutoscalingState, hs1, if_pos (le_of_eq hv.symm)]

/-- Witness for C2: from stored version 5, two reports with version 6; the
first is accepted, the second rejected as stale. -/
theorem claim_C2_witness :
    (reportAutoscalingState exampleState5 exampleReq6a).1
        = .accepted ⟨⟩ ∧
    (reportAutoscalingState (reportAutoscalingState exampleState5
        exampleReq6a).2 exampleReq6b).1 = .rejected (.stale 6 6) :=
  claim_C2_accepted_versions_strictly_increasing.2 exampleState5 exampleReq6a
    exampleReq6b rfl (by decide) (by decide)

/-- C3: the wire schema diverges from the spec's message shapes at exactly
field 5 of `ReportAutoscalingStateRequest`: the schema declares it as
`repeated ClusterResourceConstraint infeasible_gange_resource_requests`
while the spec states `infeasible_gang_resource_requests` as a list of
`GangResourceRequest`; the `GetClusterResourceStateReply` shape matches the
spec exactly. -/
theorem claim_C3_report_request_field5_mismatch :
    findField reportAutoscalingStateRequestFields 5
      = some ⟨5, "infeasible_gange_resource_requests",
          .repeatedMsg "ClusterResourceConstraint"⟩ ∧
    findField reportAutoscalingStateRequestFieldsSpec 5
      = some ⟨5, "infeasible_gang_resource_requests",
          .repeatedMsg "GangResourceRequest"⟩ ∧
    reportAutoscalingStateRequestFields ≠ reportAutoscalingStateRequestFieldsSpec ∧
    getClusterResourceStateReplyFields = getClusterResourceStateReplyFieldsSpec :=
  ⟨by decide, by decide, by decide, by decide⟩

/-- C4: `GetClusterResourceState` has no side effect and its reply does not
depend on the submitted last-seen version: it is always the full current
snapshot. -/
theorem claim_C4_get_full_snapshot_no_side_effects
    (s : AuthorityState) (req req' : GetClusterResourceStateRequest) :
    (getClusterResourceState s req).2 = s ∧
    (getClusterResourceState s req).1 = (getClusterResourceState s req').1 ∧
    (getClusterResourceState s req).1 = snapshotOf s :=
  ⟨rfl, rfl, rfl⟩

/-- C5: every reply produced during any interleaving of atomic Authority
events agrees, in the version and in all four collections, with one single
state the Authority passed through: no partial update is visible. -/
theorem claim_C5_snapshot_isolation
    (s : AuthorityState) (events : List AuthorityEvent)
    (r : GetClusterResourceStateReply) (h : r ∈ repliesOf s events) :
    ∃ s', s' ∈ statesOf s events ∧
      r.cluster_resource_state_version = s'.cluster_resource_state_version ∧
      r.node_states = s'.node_states ∧
      r.pending_resource_requests = s'.pending_resource_requests ∧
      r.pending_gang_resource_requests = s'.pending_gang_resource_requests ∧
      r.cluster_resource_constraints = s'.cluster_resource_constraints := by
  obtain ⟨s', hs', hr⟩ := repliesOf_are_snapshots events s r h
  subst hr
  exact ⟨s', hs', rfl, rfl, rfl, rfl, rfl⟩

/-- Witness for C5: the single reply of a one-read run is the snapshot of a
traversed state. -/
theorem claim_C5_witness :
    ∃ s', s' ∈ statesOf initialAuthorityState [.getState ⟨0⟩] ∧
      (snapshotOf initialAuthorityState).cluster_resource_state_version
        = s'.cluster_resource_state_version ∧
      (snapshotOf initialAuthorityState).node_states = s'.node_states ∧
      (snapshotOf initialAuthorityState).pending_resource_requests
        = s'.pending_resource_requests ∧
      (snapshotOf initialAuthorityState).pending_gang_resource_requests
        = s'.pending_gang_resource_requests ∧
      (snapshotOf initialAuthorityState).cluster_resource_constraints
        = s'.cluster_resource_constraints :=
  claim_C5_snapshot_isolation initialAuthorityState [.getState ⟨0⟩]
    (snapshotOf initialAuthorityState) (by decide)

/-- C6: in every snapshot returned during any run from a state whose nodes
satisfy the resource invariant, every node has
`available_resources[r] ≤ total_resources[r]` for every resource name. -/
theorem claim_C6_available_le_total
    (s : AuthorityState) (events : List AuthorityEvent)
    (hs : nodesOk s.node_states)
    (r : GetClusterResourceStateReply) (hr : r ∈ repliesOf s events)
    (n : NodeState) (hn : n ∈ r.node_states) (k : String) :
    lookupD n.available_resources k ≤ lookupD n.total_resources k :=
  nodesOk_repliesOf events s hs r hr n hn k

/-- Witness for C6: the node added by the feed appears in the next snapshot
with available CPU at most total CPU. -/
theorem claim_C6_witness :
    lookupD exampleNode.available_resources "CPU"
      ≤ lookupD exampleNode.total_resources "CPU" :=
  claim_C6_available_le_total initialAuthorityState exampleEventsC6
    (by simp [nodesOk, initialAuthorityState])
    (snapshotOf (stepAuthority initialAuthorityState
      (.updateNode exampleNode)).1)
    (by decide) exampleNode (by decide) "CPU"

/-- C7: the node status state machine has exactly the stated edges; the
direct jump from `ALIVE` to `DRAINED` is invalid, `DEAD` has no outgoing
transition, and every valid path from `ALIVE` that reaches `DRAINED`
passes through `DRAINING`. -/
theorem claim_C7_node_status_transitions :
    (∀ a b : NodeStatus,
      validNodeStatusTransition a b = true ↔ (a, b) ∈ nodeStatusEdges) ∧
    validNodeStatusTransition .ALIVE .DRAINED = false ∧
    (∀ b : NodeStatus, validNodeStatusTransition .DEAD b = false) ∧
    (∀ path : List NodeStatus,
      List.Chain (fun x y => validNodeStatusTransition x y = true) .ALIVE path →
      NodeStatus.DRAINED ∈ path → NodeStatus.DRAINING ∈ path) := by
  refine ⟨?_, rfl, ?_, ?_⟩
  · intro a b
    cases a <;> cases b <;> decide
  · intro b
    cases b <;> rfl
  · intro path hchain hmem
    rcases draining_before_drained path .ALIVE hchain hmem with h1 | h2
    · exact absurd h1 (by decide)
    · exact h2

/-- Witness for C7: the drain path `ALIVE → DRAIN_PENDING → DRAINING →
DRAINED` is a valid chain and indeed contains `DRAINING`. -/
theorem claim_C7_witness :
    NodeStatus.DRAINING
      ∈ [NodeStatus.DRAIN_PENDING, NodeStatus.DRAINING, NodeStatus.DRAINED] :=
  claim_C7_node_status_transitions.2.2.2
    [NodeStatus.DRAIN_PENDING, NodeStatus.DRAINING, NodeStatus.DRAINED]
    (List.Chain.cons rfl (List.Chain.cons rfl (List.Chain.cons rfl
      List.Chain.nil))) (by decide)

/-- C8: gang allocation is all-or-nothing: when the bundles cannot all be
placed, the scheduling step changes nothing (the request stays pending and
no bundle is partially allocated), and when it succeeds the available
resources drop by exactly the total demand of all bundles together. -/
theorem claim_C8_gang_all_or_nothing
    (s : AuthorityState) (g : GangResourceRequest) :
    (allocateBundles s.node_states g.requests = none →
      stepAuthority s (.allocGang g) = (s, none) ∧
      (g ∈ s.pending_gang_resource_requests →
        g ∈ (stepAuthority s (.allocGang g)).1.pending_gang_resource_requests)) ∧
    (∀ ns', allocateBundles s.node_states g.requests = some ns' →
      ∀ k, sumAvail ns' k = sumAvail s.node_states k - gangDemand g k) := by
  constructor
  · intro hnone
    have hstep : stepAuthority s (.allocGang g) = (s, none) := by
      rw [stepAuthority]
      by_cases hw : gangWellFormed g = true
      · rw [if_pos hw, hnone]
      · rw [if_neg hw]
    exact ⟨hstep, fun hmem => by rw [hstep]; exact hmem⟩
  · intro ns' h k
    exact sumAvail_allocateBundles g.requests s.node_states ns' h k

/-- Witness for C8: a gang of two 2-CPU bundles against a single node with
2 available CPUs cannot be allocated; the step is a no-op and the request
stays pending. -/
theorem claim_C8_witness :
    stepAuthority exampleStateOneNode (.allocGang exampleGang)
        = (exampleStateOneNode, none) ∧
    (exampleGang ∈ exampleStateOneNode.pending_gang_resource_requests →
      exampleGang ∈ (stepAuthority exampleStateOneNode
        (.allocGang exampleGang)).1.pending_gang_resource_requests) :=
  (claim_C8_gang_all_or_nothing exampleStateOneNode exampleGang).1 (by
    norm_num [allocateBundles, placeRequest, nodeFits, mapSub, lookupD,
      alookup, constraintsOkB, exampleStateOneNode, exampleGang,
      initialAuthorityState, allocateOn, applyScheduleLabels])

/-- C9: a request carrying an anti-affinity constraint is only ever placed
on a node that does not already carry the constraint's label/value pair,
and when `create_label_on_schedule` is set the chosen node carries the
label right after scheduling (label names assumed pairwise distinct within
one request). -/
theorem claim_C9_anti_affinity
    (nodes ns' : List NodeState) (r : ResourceRequest)
    (c : AntiAffinityConstraint)
    (hc : PlacementConstraint.mk (some c) ∈ r.placement_constraints)
    (hnd : (constraintNames r.placement_constraints).Nodup)
    (h : placeRequest nodes r = some ns') :
    ∃ pre n suf, nodes = pre ++ n :: suf ∧
      ns' = pre ++ allocateOn n r :: suf ∧
      alookup n.dynamic_labels c.label_name ≠ some c.label_value ∧
      (c.create_label_on_schedule = true →
        alookup (allocateOn n r).dynamic_labels c.label_name
          = some c.label_value) := by
  obtain ⟨pre, n, suf, h1, h2, hf⟩ := placeRequest_decomp nodes ns' r h
  rw [nodeFits, Bool.and_eq_true] at hf
  refine ⟨pre, n, suf, h1, h2, constraintsOkB_no_label hf.2 hc, ?_⟩
  intro hcr
  show alookup (applyScheduleLabels r.placement_constraints n.dynamic_labels)
      c.label_name = some c.label_value
  exact alookup_applyScheduleLabels_create _ _ _ hnd hc hcr

/-- Witness for C9: a placement-group bundle skips the node already
labelled `_PG = pg1` and lands on the clean node, which then carries the
label. -/
theorem claim_C9_witness :
    ∃ pre n suf,
      [exampleLabeledNode, exampleCleanNode] = pre ++ n :: suf ∧
      [exampleLabeledNode, allocateOn exampleCleanNode examplePgRequest]
        = pre ++ allocateOn n examplePgRequest :: suf ∧
      alookup n.dynamic_labels "_PG" ≠ some "pg1" ∧
      (true = true →
        alookup (allocateOn n examplePgRequest).dynamic_labels "_PG"
          = some "pg1") :=
  claim_C9_anti_affinity [exampleLabeledNode, exampleCleanNode]
    [exampleLabeledNode, allocateOn exampleCleanNode examplePgRequest]
    examplePgRequest examplePgConstraint (by decide) (by decide) (by rfl)

/-- C10: both status enums assign tag 0 to their first variant, so a
`NodeState` whose status field is absent decodes (without error) to
`ALIVE`, and an `Instance` whose status field is absent decodes to
`INSTANCE_STATUS_UNSPECIFIED`; tags round-trip over both enums. -/
theorem claim_C10_default_enum_tags :
    decodeNodeStatusField none = some NodeStatus.ALIVE ∧
    decodeInstanceStatusField none
      = some InstanceStatus.INSTANCE_STATUS_UNSPECIFIED ∧
    NodeStatus.toTag .ALIVE = 0 ∧
    InstanceStatus.toTag .INSTANCE_STATUS_UNSPECIFIED = 0 ∧
    (∀ s : NodeStatus, NodeStatus.ofTag s.toTag = some s) ∧
    (∀ s : InstanceStatus, InstanceStatus.ofTag s.toTag = some s) := by
  refine ⟨rfl, rfl, rfl, rfl, ?_, ?_⟩
  · intro s; cases s <;> rfl
  · intro s; cases s <;> rfl
